import Mathlib

/-!
Verification of the `pinglist` ping-statistics program (`main.go`).

The Go source is shallowly embedded below:
* Go `time.Duration` is an `int64` count of nanoseconds and Go `int` is 64 bits wide;
  every value arising in the claims stays far below `2^63` (no wraparound behaviour is
  intended or reachable), so both are modelled as unbounded `Int`.
* Go `float64` fields are modelled as exact rationals `ℚ` (with an explicit NaN/±Inf
  marker type where IEEE special values matter).  Every `float64` operation appearing
  in the claims acts on integers below `2^53` and on their exact sums/products, where
  `float64` arithmetic is exact.
* Fallible code returns `Except`; the per-target mutex is modelled in the scheduler
  section by making each lock-protected critical section one atomic action.
-/

namespace Pinglist

/-- The `pingStats` struct of `main.go` (minus the mutex, which the scheduler section
models by action atomicity).  Field order and names follow the source:
`Name`, `Addr`, `pktsSent`, `pktsRecv`, `rttAvg`, `rttVar`, `rttStdDev`. -/
structure PingStats where
  Name : String
  Addr : String
  pktsSent : Int
  pktsRecv : Int
  rttAvg : Int
  rttVar : Int
  rttStdDev : Int
deriving DecidableEq, Repr

/-- `newPingStats(name, addr)`: all statistics fields start at their Go zero values. -/
def newPingStats (name addr : String) : PingStats :=
  { Name := name, Addr := addr, pktsSent := 0, pktsRecv := 0,
    rttAvg := 0, rttVar := 0, rttStdDev := 0 }

/-- `OnPktSend`: increments `pktsSent` (the whole method body runs under the lock). -/
def OnPktSend (s : PingStats) : PingStats :=
  { s with pktsSent := s.pktsSent + 1 }

/-- Newton iteration for the integer square root, with explicit fuel.  The guess
strictly decreases on every recursive step, so `fuel = n` always suffices and the
function computes `⌊√n⌋` for every `n` (same scheme as `Nat.sqrt`, made structurally
recursive so that concrete values reduce in the kernel). -/
def isqrtIter (n : Nat) : Nat → Nat → Nat
  | 0, guess => guess
  | fuel + 1, guess =>
      let next := (guess + n / guess) / 2
      if next < guess then isqrtIter n fuel next else guess

/-- Integer square root `⌊√n⌋`. -/
def isqrt (n : Nat) : Nat :=
  if n ≤ 1 then n else isqrtIter n n (n / 2)

/-- `time.Duration(math.Sqrt(float64(v) / float64(n)))` with `n ≥ 1` (the call site
passes `n = pktsRecv - 1 ≥ 1`): `math.Sqrt` is the correctly-rounded square root and
the `time.Duration` conversion truncates toward zero, so for `v ≥ 0` the result is
`⌊√(v/n)⌋`, which equals `isqrt ⌊v/n⌋` (`⌊√x⌋ = ⌊√⌊x⌋⌋` for every real `x ≥ 0`; the
values in the claims are exactly representable in `float64`).  A negative `v` never
arises (Welford's accumulator is a sum of same-signed factors); Go would produce
`time.Duration(NaN)`, an implementation-defined value, on that dead branch. -/
def durSqrtDiv (v n : Int) : Int :=
  if v < 0 then 0 else Int.ofNat (isqrt (Int.toNat (Int.fdiv v n)))

/-- `OnPktRecv`: increments `pktsRecv`, then applies Welford's online update exactly as
in the source: on the first sample `rttAvg = rtt`, `rttVar = 0` (and `rttStdDev` is left
untouched); otherwise `delta := rtt - rttAvg`; `rttAvg += delta / pktsRecv` with Go's
truncated `time.Duration` (int64) division; `rttVar += float64(delta) * float64(rtt -
rttAvg)` using the updated mean; `rttStdDev = Duration(sqrt(rttVar / (pktsRecv-1)))`.
The `float64` accumulator `rttVar` only ever holds sums of products of int64 values,
i.e. integers (exact in `float64` below `2^53`, which covers every claim value), so it
is modelled as `Int`. -/
def OnPktRecv (s : PingStats) (rtt : Int) : PingStats :=
  let recv := s.pktsRecv + 1
  if recv = 1 then
    { s with pktsRecv := recv, rttAvg := rtt, rttVar := 0 }
  else
    let delta := rtt - s.rttAvg
    let avg := s.rttAvg + Int.tdiv delta recv
    let rvar := s.rttVar + delta * (rtt - avg)
    { s with
        pktsRecv := recv
        rttAvg := avg
        rttVar := rvar
        rttStdDev := durSqrtDiv rvar (recv - 1) }

/-- `RttAvg` accessor (lock modelled by action atomicity). -/
def RttAvg (s : PingStats) : Int := s.rttAvg

/-- `RttStdDev` accessor (lock modelled by action atomicity). -/
def RttStdDev (s : PingStats) : Int := s.rttStdDev

/-- A `float64` value: exact rational, or one of the IEEE special values that the
integer-fed arithmetic of `PktLoss` can produce. -/
inductive GoFloat where
  | nan : GoFloat
  | posInf : GoFloat
  | negInf : GoFloat
  | val : ℚ → GoFloat
deriving DecidableEq, Repr

/-- IEEE `float64` division on the modelled values (exact on the finite quotients that
occur in the claims; `0/0 = NaN`, `±x/0 = ±Inf`). -/
def gfDiv : GoFloat → GoFloat → GoFloat
  | .val x, .val y =>
      if y = 0 then (if x = 0 then .nan else if 0 < x then .posInf else .negInf)
      else .val (x / y)
  | .nan, _ => .nan
  | _, .nan => .nan
  | .posInf, .posInf => .nan
  | .posInf, .negInf => .nan
  | .negInf, .posInf => .nan
  | .negInf, .negInf => .nan
  | .posInf, .val y => if 0 ≤ y then .posInf else .negInf
  | .negInf, .val y => if 0 ≤ y then .negInf else .posInf
  | .val _, .posInf => .val 0
  | .val _, .negInf => .val 0

/-- IEEE `float64` multiplication on the modelled values. -/
def gfMul : GoFloat → GoFloat → GoFloat
  | .val x, .val y => .val (x * y)
  | .nan, _ => .nan
  | _, .nan => .nan
  | .posInf, .posInf => .posInf
  | .posInf, .negInf => .negInf
  | .negInf, .posInf => .negInf
  | .negInf, .negInf => .posInf
  | .posInf, .val y => if y = 0 then .nan else if 0 < y then .posInf else .negInf
  | .val x, .posInf => if x = 0 then .nan else if 0 < x then .posInf else .negInf
  | .negInf, .val y => if y = 0 then .nan else if 0 < y then .negInf else .posInf
  | .val x, .negInf => if x = 0 then .nan else if 0 < x then .negInf else .posInf

/-- `PktLoss`: `float64(pktsSent-pktsRecv) / float64(pktsSent) * 100`, computed
unconditionally (no guard on `pktsSent == 0` in the source). -/
def PktLoss (s : PingStats) : GoFloat :=
  gfMul (gfDiv (.val ((s.pktsSent - s.pktsRecv : Int) : ℚ)) (.val ((s.pktsSent : Int) : ℚ)))
    (.val 100)

/-- One lock-protected mutator call on a target (`OnPktSend` / `OnPktRecv`). -/
inductive Op where
  | send : Op
  | recv : Int → Op
deriving DecidableEq, Repr

/-- Apply one mutator call. -/
def applyOp (s : PingStats) : Op → PingStats
  | .send => OnPktSend s
  | .recv rtt => OnPktRecv s rtt

/-- Apply a sequence of mutator calls in order. -/
def applyOps (s : PingStats) (ops : List Op) : PingStats := ops.foldl applyOp s

def isSend : Op → Bool
  | .send => true
  | .recv _ => false

/-- Number of `OnPktSend` calls in a call sequence. -/
def nSends (ops : List Op) : Nat := (ops.filter isSend).length

/-- Number of `OnPktRecv` calls in a call sequence. -/
def nRecvs (ops : List Op) : Nat := (ops.filter (fun o => !isSend o)).length

/-!
## Go's `sort.Slice` (Go ≥ 1.19: pattern-defeating quicksort)

`model.Update` sorts `m.pings` with `sort.Slice(..., less)` each tick.  `sort.Slice`
runs `pdqsort` with `limit = bits.Len(uint(n))`.  The port below follows the Go
standard library's `zsortfunc.go` function by function.  The slice is modelled as a
`List α` addressed by index (`getA`/`swapA`); every index the algorithm produces is in
bounds, and the out-of-bounds branches below (which Go would turn into panics that
never fire) leave the slice unchanged.  Loops are written as structural recursion:
loops over an increasing index `i < b` take an iteration budget that the caller sets
to the exact trip-count bound (`b - i`), so the budget never runs out before the Go
loop condition fails; loops over a decreasing index recurse on the index itself.
-/

section GoSort

variable {α : Type} [Inhabited α] (less : α → α → Bool)

/-- Indexed read `data[i]` (in bounds at every use). -/
def getA (xs : List α) (i : Nat) : α := xs.getD i default

/-- `data.Swap(i, j)` (reflect-generated swap of two slice elements). -/
def swapA (xs : List α) (i j : Nat) : List α :=
  if i < xs.length ∧ j < xs.length then (xs.set i (getA xs j)).set j (getA xs i) else xs

/-- Inner loop of `insertionSort_func`: `for j := i; j > a && data.Less(j, j-1); j--`. -/
def insSortInner (xs : List α) (a : Nat) : Nat → List α
  | 0 => xs
  | j + 1 =>
      if a < j + 1 ∧ less (getA xs (j + 1)) (getA xs j) = true then
        insSortInner (swapA xs (j + 1) j) a j
      else xs

/-- Outer loop of `insertionSort_func`: `for i := a + 1; i < b; i++`; the budget is the
remaining trip count `b - i`. -/
def insSortLoop (xs : List α) (a : Nat) : Nat → Nat → List α
  | _, 0 => xs
  | i, fuel + 1 => insSortLoop (insSortInner less xs a i) a (i + 1) fuel

/-- `insertionSort_func(data, a, b)`: sorts `data[a:b]`. -/
def insertionSortA (xs : List α) (a b : Nat) : List α :=
  insSortLoop less xs a (a + 1) (b - (a + 1))

/-- `siftDown_func(data, lo, hi, first)`: the loop advances `root` to a child
`≥ 2*root+1`, so `hi` bounds the iteration count.  The Go `child` selection is split
into its two cases. -/
def siftDownA (xs : List α) (hi first : Nat) : Nat → Nat → List α
  | 0, _ => xs
  | fuel + 1, root =>
      if 2 * root + 1 < hi then
        let c0 := 2 * root + 1
        if c0 + 1 < hi ∧ less (getA xs (first + c0)) (getA xs (first + c0 + 1)) = true then
          (if less (getA xs (first + root)) (getA xs (first + c0 + 1)) = true then
            siftDownA (swapA xs (first + root) (first + c0 + 1)) hi first fuel (c0 + 1)
          else xs)
        else
          (if less (getA xs (first + root)) (getA xs (first + c0)) = true then
            siftDownA (swapA xs (first + root) (first + c0)) hi first fuel c0
          else xs)
      else xs

/-- First loop of `heapSort_func`: `for i := (hi-1)/2; i >= 0; i--`. -/
def heapBuild (xs : List α) (hi first : Nat) : Nat → List α
  | 0 => siftDownA less xs hi first hi 0
  | i + 1 => heapBuild (siftDownA less xs hi first hi (i + 1)) hi first i

/-- Second loop of `heapSort_func`: `for i := hi - 1; i >= 0; i--`. -/
def heapPop (xs : List α) (first : Nat) : Nat → List α
  | 0 => siftDownA less (swapA xs first (first + 0)) 0 first 0 0
  | i + 1 =>
      heapPop (siftDownA less (swapA xs first (first + (i + 1))) (i + 1) first (i + 1) 0)
        first i

/-- `heapSort_func(data, a, b)`; the popping loop runs only when `hi ≥ 1`, exactly as
in Go. -/
def heapSortA (xs : List α) (a b : Nat) : List α :=
  let hi := b - a
  let xs1 := heapBuild less xs hi a ((hi - 1) / 2)
  if hi = 0 then xs1 else heapPop less xs1 a (hi - 1)

/-- `reverseRange_func`'s loop (`i` and `j` converge; recursion on `j`). -/
def revLoop (xs : List α) : Nat → Nat → List α
  | _, 0 => xs
  | i, j + 1 => if i < j + 1 then revLoop (swapA xs i (j + 1)) (i + 1) j else xs

/-- `reverseRange_func(data, a, b)`. -/
def reverseRangeA (xs : List α) (a b : Nat) : List α := revLoop xs a (b - 1)

/-- `order2_func`: returns the two indices in `less` order plus the updated
`swaps` counter (no data movement). -/
def order2A (xs : List α) (a b swaps : Nat) : Nat × Nat × Nat :=
  if less (getA xs b) (getA xs a) = true then (b, a, swaps + 1) else (a, b, swaps)

/-- `median_func`: index of the median of three elements. -/
def medianA (xs : List α) (a b c swaps : Nat) : Nat × Nat :=
  let p1 := order2A less xs a b swaps
  let p2 := order2A less xs p1.2.1 c p1.2.2
  let p3 := order2A less xs p1.1 p2.1 p2.2.2
  (p3.2.1, p3.2.2)

/-- `medianAdjacent_func`: median of `data[a-1]`, `data[a]`, `data[a+1]`. -/
def medianAdjacentA (xs : List α) (a swaps : Nat) : Nat × Nat :=
  medianA less xs (a - 1) a (a + 1) swaps

/-- `sortedHint` of `choosePivot_func`. -/
inductive SortHint where
  | increasing : SortHint
  | decreasing : SortHint
  | unknown : SortHint
deriving DecidableEq, Repr

/-- `choosePivot_func(data, a, b)`: median (or Tukey-ninther) pivot plus a sortedness
hint derived from the `swaps` counter (`0 ↦ increasing`, `12 ↦ decreasing`). -/
def choosePivotA (xs : List α) (a b : Nat) : Nat × SortHint :=
  let l := b - a
  let i0 := a + l / 4 * 1
  let j0 := a + l / 4 * 2
  let k0 := a + l / 4 * 3
  if 8 ≤ l then
    let t :=
      if 50 ≤ l then
        let pi := medianAdjacentA less xs i0 0
        let pj := medianAdjacentA less xs j0 pi.2
        let pk := medianAdjacentA less xs k0 pj.2
        (pi.1, pj.1, pk.1, pk.2)
      else (i0, j0, k0, 0)
    let pm := medianA less xs t.1 t.2.1 t.2.2.1 t.2.2.2
    if pm.2 = 0 then (pm.1, SortHint.increasing)
    else if pm.2 = 12 then (pm.1, SortHint.decreasing)
    else (pm.1, SortHint.unknown)
  else (j0, SortHint.increasing)

/-- First scan of `partition_func` / its swap loop: `for i <= j && data.Less(i, a)
{ i++ }`; budget `j + 1 - i` is the exact trip-count bound. -/
def scanUp (xs : List α) (a : Nat) : Nat → Nat → Nat → Nat
  | i, _, 0 => i
  | i, j, fuel + 1 =>
      if i ≤ j ∧ less (getA xs i) (getA xs a) = true then scanUp xs a (i + 1) j fuel else i

/-- Second scan of `partition_func`: `for i <= j && !data.Less(j, a) { j-- }`.
Recursion on `j`; every caller passes `i ≥ 1` (`i` starts at `a + 1` and only grows),
so at `j = 0` the Go guard `i <= j` fails and `j` is returned unchanged. -/
def scanDown (xs : List α) (a i : Nat) : Nat → Nat
  | 0 => 0
  | j + 1 =>
      if i ≤ j + 1 ∧ ¬less (getA xs (j + 1)) (getA xs a) = true then scanDown xs a i j
      else j + 1

/-- The swap loop of `partition_func` (returns the slice and the final `j`); the
budget (set to `b` by the caller) bounds the trip count since `i` grows past `j`. -/
def partSwapLoop (xs : List α) (a : Nat) : Nat → Nat → Nat → List α × Nat
  | _, j, 0 => (xs, j)
  | i, j, fuel + 1 =>
      let i1 := scanUp less xs a i j (j + 1 - i)
      let j1 := scanDown less xs a i1 j
      if j1 < i1 then (xs, j1)
      else partSwapLoop (swapA xs i1 j1) a (i1 + 1) (j1 - 1) fuel

/-- `partition_func(data, a, b, pivot)`: returns the slice, the new pivot position and
whether the range was already partitioned. -/
def partitionA (xs : List α) (a b pivot : Nat) : List α × Nat × Bool :=
  let xs0 := swapA xs a pivot
  let i := a + 1
  let j := b - 1
  let i1 := scanUp less xs0 a i j (j + 1 - i)
  let j1 := scanDown less xs0 a i1 j
  if j1 < i1 then (swapA xs0 j1 a, j1, true)
  else
    let p := partSwapLoop less (swapA xs0 i1 j1) a (i1 + 1) (j1 - 1) b
    (swapA p.1 p.2 a, p.2, false)

/-- First scan of `partitionEqual_func`: `for i <= j && !data.Less(a, i) { i++ }`. -/
def scanUpEq (xs : List α) (a : Nat) : Nat → Nat → Nat → Nat
  | i, _, 0 => i
  | i, j, fuel + 1 =>
      if i ≤ j ∧ ¬less (getA xs a) (getA xs i) = true then scanUpEq xs a (i + 1) j fuel
      else i

/-- Second scan of `partitionEqual_func`: `for i <= j && data.Less(a, j) { j-- }`
(callers pass `i ≥ 1`, as for `scanDown`). -/
def scanDownEq (xs : List α) (a i : Nat) : Nat → Nat
  | 0 => 0
  | j + 1 =>
      if i ≤ j + 1 ∧ less (getA xs a) (getA xs (j + 1)) = true then scanDownEq xs a i j
      else j + 1

/-- The swap loop of `partitionEqual_func` (returns the slice and the final `i`). -/
def partEqLoop (xs : List α) (a : Nat) : Nat → Nat → Nat → List α × Nat
  | i, _, 0 => (xs, i)
  | i, j, fuel + 1 =>
      let i1 := scanUpEq less xs a i j (j + 1 - i)
      let j1 := scanDownEq less xs a i1 j
      if j1 < i1 then (xs, i1)
      else partEqLoop (swapA xs i1 j1) a (i1 + 1) (j1 - 1) fuel

/-- `partitionEqual_func(data, a, b, pivot)`: groups elements equal to the pivot at the
front; returns the slice and the first index past them. -/
def partitionEqualA (xs : List α) (a b pivot : Nat) : List α × Nat :=
  let xs0 := swapA xs a pivot
  partEqLoop less xs0 a (a + 1) (b - 1) b

/-- The `i`-advancing scan of `partialInsertionSort_func`:
`for i < b && !data.Less(i, i-1) { i++ }`. -/
def skipSorted (xs : List α) (b : Nat) : Nat → Nat → Nat
  | i, 0 => i
  | i, fuel + 1 =>
      if i < b ∧ ¬less (getA xs i) (getA xs (i - 1)) = true then
        skipSorted xs b (i + 1) fuel
      else i

/-- Left shift of `partialInsertionSort_func`: `for j := i-1; j >= 1; j--`. -/
def shiftLeftLoop (xs : List α) : Nat → List α
  | 0 => xs
  | j + 1 =>
      if less (getA xs (j + 1)) (getA xs j) = true then
        shiftLeftLoop (swapA xs (j + 1) j) j
      else xs

/-- Right shift of `partialInsertionSort_func`: `for j := i+1; j < b; j++`. -/
def shiftRightLoop (xs : List α) (b : Nat) : Nat → Nat → List α
  | _, 0 => xs
  | j, fuel + 1 =>
      if j < b then
        (if less (getA xs j) (getA xs (j - 1)) = true then
          shiftRightLoop (swapA xs j (j - 1)) b (j + 1) fuel
        else xs)
      else xs

/-- The `maxSteps = 5` loop of `partialInsertionSort_func` (returns the slice and
whether the range ended up fully sorted); `shortestShifting = 50`. -/
def partialInsLoop (xs : List α) (a b : Nat) : Nat → Nat → List α × Bool
  | _, 0 => (xs, false)
  | i, steps + 1 =>
      let i1 := skipSorted less xs b i (b - i)
      if i1 = b then (xs, true)
      else if b - a < 50 then (xs, false)
      else
        let xs1 := swapA xs i1 (i1 - 1)
        let xs2 := if 2 ≤ i1 - a then shiftLeftLoop less xs1 (i1 - 1) else xs1
        let xs3 := if 2 ≤ b - i1 then shiftRightLoop less xs2 b (i1 + 1) (b - (i1 + 1)) else xs2
        partialInsLoop xs3 a b i1 steps

/-- `partialInsertionSort_func(data, a, b)`. -/
def partialInsertionSortA (xs : List α) (a b : Nat) : List α × Bool :=
  partialInsLoop less xs a b (a + 1) 5

/-- One step of Go's `xorshift` PRNG on a 64-bit state. -/
def xorshiftNext (r : Nat) : Nat :=
  let r1 := r ^^^ ((r <<< 13) % 2 ^ 64)
  let r2 := r1 ^^^ (r1 >>> 7)
  r2 ^^^ ((r2 <<< 17) % 2 ^ 64)

/-- `bits.Len(uint(n))`: the number of bits of `n` (fuel-based so it reduces). -/
def bitsLenAux : Nat → Nat → Nat
  | 0, _ => 0
  | fuel + 1, n => if n = 0 then 0 else bitsLenAux fuel (n / 2) + 1

/-- `bits.Len(uint(n))`. -/
def goBitsLen (n : Nat) : Nat := bitsLenAux (n + 1) n

/-- `breakPatterns_func(data, a, b)`: three pseudo-random swaps around the middle,
seeded deterministically with the range length; the three loop iterations are
unrolled. -/
def breakPatternsA (xs : List α) (a b : Nat) : List α :=
  let len := b - a
  if 8 ≤ len then
    let modMask := (1 <<< goBitsLen len) - 1
    let idx := a + len / 4 * 2 - 1
    let r1 := xorshiftNext len
    let o1 := if len ≤ (r1 &&& modMask) then (r1 &&& modMask) - len else r1 &&& modMask
    let xs1 := swapA xs (idx - 1 + 0) (a + o1)
    let r2 := xorshiftNext r1
    let o2 := if len ≤ (r2 &&& modMask) then (r2 &&& modMask) - len else r2 &&& modMask
    let xs2 := swapA xs1 (idx - 1 + 1) (a + o2)
    let r3 := xorshiftNext r2
    let o3 := if len ≤ (r3 &&& modMask) then (r3 &&& modMask) - len else r3 &&& modMask
    swapA xs2 (idx - 1 + 2) (a + o3)
  else xs

/-- One iteration of `pdqsort_func`'s `for` loop past the two leading base-case tests
(the `length > 12`, `limit ≠ 0` regime); `rec` is the continuation for both the loop's
next iteration and the recursive calls, each of which spends one unit of `pdqsortA`'s
budget. -/
def pdqsortLoop (rec : List α → Nat → Nat → Nat → Bool → Bool → List α)
    (xs : List α) (a b limit : Nat) (wasBalanced wasPartitioned : Bool) : List α :=
  let length := b - a
  let xs0 := if !wasBalanced then breakPatternsA xs a b else xs
  let limit0 := if !wasBalanced then limit - 1 else limit
  let ph := choosePivotA less xs0 a b
  let xs1 := if ph.2 = SortHint.decreasing then reverseRangeA xs0 a b else xs0
  let pivot := if ph.2 = SortHint.decreasing then (b - 1) - (ph.1 - a) else ph.1
  let hint := if ph.2 = SortHint.decreasing then SortHint.increasing else ph.2
  let pi2 :=
    if wasBalanced ∧ wasPartitioned ∧ hint = SortHint.increasing then
      partialInsertionSortA less xs1 a b
    else (xs1, false)
  if pi2.2 then pi2.1
  else
    let xs2 := pi2.1
    if 0 < a ∧ ¬less (getA xs2 (a - 1)) (getA xs2 pivot) = true then
      let pe := partitionEqualA less xs2 a b pivot
      rec pe.1 pe.2 b limit0 wasBalanced wasPartitioned
    else
      let pr := partitionA less xs2 a b pivot
      let mid := pr.2.1
      let balanced := decide (length / 8 ≤ min (mid - a) (b - mid))
      if mid - a < b - mid then
        let xsL := rec pr.1 a mid limit0 true true
        rec xsL (mid + 1) b limit0 balanced pr.2.2
      else
        let xsR := rec pr.1 (mid + 1) b limit0 true true
        rec xsR a mid limit0 balanced pr.2.2

/-- `pdqsort_func(data, a, b, limit)`.  The structure mirrors the Go source: the
`for` loop and the recursive calls both become recursive calls here, so the explicit
budget bounds loop iterations plus recursion depth; `sortSliceGo` passes a budget that
the algorithm cannot exhaust (each iteration either returns, advances `a`, shrinks
`b`, or recurses on a strict sub-range). -/
def pdqsortA : Nat → List α → Nat → Nat → Nat → Bool → Bool → List α
  | 0, xs, _, _, _, _, _ => xs
  | fuel + 1, xs, a, b, limit, wasBalanced, wasPartitioned =>
      if b - a ≤ 12 then insertionSortA less xs a b
      else if limit = 0 then heapSortA less xs a b
      else pdqsortLoop less (pdqsortA fuel) xs a b limit wasBalanced wasPartitioned

/-- `sort.Slice(x, less)`: `pdqsort(data, 0, n, bits.Len(uint(n)))`.  The budget
`n*n + 64` strictly exceeds the longest possible chain of loop iterations and nested
recursive calls, so the fuel-out branch is unreachable. -/
def sortSliceGo (xs : List α) : List α :=
  pdqsortA less (xs.length * xs.length + 64) xs 0 xs.length (goBitsLen xs.length) true true

end GoSort

/-- The comparison closure of `model.Update`'s tick branch:
`m.pings[i].RttAvg() < m.pings[j].RttAvg()`. -/
def lessPing (s t : PingStats) : Bool := decide (RttAvg s < RttAvg t)

instance : Inhabited PingStats := ⟨newPingStats "" ""⟩

/-- The per-tick re-sort of `m.pings` in `model.Update` (case `updateRowsMsg`):
`sort.Slice(m.pings, less-by-RttAvg)`. -/
def sortPings (l : List PingStats) : List PingStats := sortSliceGo lessPing l

/-!
## Row rendering (`pingsToRows`)
-/

/-- Round a rational to the nearest integer, ties to even: the decimal rounding
`fmt` applies when formatting an exactly-represented `float64` with `%.1f` (after
scaling by 10). -/
def rndHalfEven (q : ℚ) : Int :=
  if q - ⌊q⌋ > 1 / 2 then ⌊q⌋ + 1
  else if q - ⌊q⌋ < 1 / 2 then ⌊q⌋
  else if ⌊q⌋ % 2 = 0 then ⌊q⌋ else ⌊q⌋ + 1

/-- Go `fmt.Sprintf("%.1f", x)` for a `float64`: `NaN`/`+Inf`/`-Inf` render as their
names; a finite value renders sign, integer part, `.`, and one rounded decimal. -/
def fmtF1 : GoFloat → String
  | .nan => "NaN"
  | .posInf => "+Inf"
  | .negInf => "-Inf"
  | .val q =>
      let sign := if q < 0 then "-" else ""
      let m := rndHalfEven (|q| * 10)
      sign ++ toString (Int.tdiv m 10) ++ "." ++ toString (Int.tmod m 10)

/-- Go `Duration.Round(100 * time.Microsecond)` (the rounding `pingsToRows` applies to
both RTT cells): nearest multiple of `1e5` ns, ties away from zero.  The Go source's
`minDuration`/`maxDuration` overflow clamps are kept; with unbounded integers their
conditions always select the unclamped value. -/
def durRound100us (d : Int) : Int :=
  let m : Int := 100000
  let r0 := Int.tmod d m
  if d < 0 then
    let r := -r0
    if r + r < m then d + r
    else
      let d1 := d - m + r
      if d1 < d then d1 else -(2 ^ 63)
  else
    if r0 + r0 < m then d - r0
    else
      let d1 := d + m - r0
      if d < d1 then d1 else 2 ^ 63 - 1

/-- One row of `pingsToRows`.  `name` and `addr` are the strings the source puts in
the row; `lossCell` is the rendered `fmt.Sprintf("%.1f%%", s.PktLoss())` string; the
two RTT cells are kept as their `Round(100µs)`-rounded duration values — the final
`Duration.String()` pretty-printing is an injective presentation of that value and no
claim refers to it, so it is not modelled. -/
structure Row where
  name : String
  addr : String
  lossCell : String
  avgRounded : Int
  stdRounded : Int
deriving DecidableEq, Repr

/-- The row `pingsToRows` builds for one target. -/
def rowOf (s : PingStats) : Row :=
  { name := s.Name
    addr := s.Addr
    lossCell := fmtF1 (PktLoss s) ++ "%"
    avgRounded := durRound100us (RttAvg s)
    stdRounded := durRound100us (RttStdDev s) }

/-- `pingsToRows(pings)`: one row per target, in slice order.  (Each accessor call
locks individually; this sequential composition is the claim-relevant value-level
view — interleavings with a concurrent writer are modelled in the scheduler section.) -/
def pingsToRows (pings : List PingStats) : List Row := pings.map rowOf

/-!
## Target-list loading (`readPingTargets`) and startup (`main`)
-/

/-- Split a character list at the first `'|'` (`none` when there is no separator). -/
def cutChars : List Char → Option (List Char × List Char)
  | [] => none
  | c :: cs =>
      if c = '|' then some ([], cs)
      else (cutChars cs).map (fun p => (c :: p.1, p.2))

/-- Go `strings.Cut(line, "|")`: `(before, after, found)`; when the separator does not
occur, `before` is the whole string and `after` is empty. -/
def goCut (s : String) : String × String × Bool :=
  match cutChars s.data with
  | none => (s, "", false)
  | some (pre, post) => (⟨pre⟩, ⟨post⟩, true)

/-- One iteration of `readPingTargets`' scanner loop:
`name, addr, _ := strings.Cut(line, "|"); stats = append(stats, newPingStats(name, addr))`. -/
def targetOfLine (line : String) : PingStats :=
  newPingStats (goCut line).1 (goCut line).2.1

/-- The scanner loop of `readPingTargets`: one target per line. -/
def readTargets (lines : List String) : List PingStats := lines.map targetOfLine

/-- Strip one trailing `'\r'` (`bufio.ScanLines`' `dropCR`). -/
def dropTrailCR (l : List Char) : List Char :=
  if l.getLast? = some '\r' then l.dropLast else l

/-- Split a character list at every `'\n'` (always at least one segment). -/
def splitNL : List Char → List (List Char)
  | [] => [[]]
  | c :: cs =>
      if c = '\n' then [] :: splitNL cs
      else
        match splitNL cs with
        | [] => [[c]]
        | l :: ls => (c :: l) :: ls

/-- The lines a `bufio.Scanner` with `ScanLines` yields for a file's contents: split
at `'\n'`, strip one trailing `'\r'` per line, and do not emit the empty token after
a final newline (empty input yields no lines). -/
def goLines (s : String) : List String :=
  if s.data = [] then []
  else
    let segs := splitNL s.data
    let segs2 := if segs.getLast? = some [] then segs.dropLast else segs
    segs2.map (fun l => ⟨dropTrailCR l⟩)

/-- Which standard stream a startup message is printed to. -/
inductive OutChan where
  | stdout : OutChan
  | stderr : OutChan
deriving DecidableEq, Repr

/-- A fatal startup exit: the exit code passed to `os.Exit`, the stream the message
went to, and the message's fixed prelude (the appended `err` detail text is
platform-phrased and elided). -/
structure FatalExit where
  code : Nat
  chan : OutChan
  msg : String
deriving DecidableEq, Repr

/-- `flag.Arg(0)` after `flag.Parse()`: the first positional argument, or `""` when no
positional argument was given. -/
def flagArg0 (argv : List String) : String := (argv.get? 0).getD ""

/-- `os.ReadFile` over a filesystem modelled as a partial map from paths to contents;
the empty path (what `flag.Arg(0)` yields when no argument is given) never names a
readable file. -/
def readFileFS (fs : String → Option String) (path : String) : Option String :=
  if path = "" then none else fs path

/-- Startup (`main` through `readPingTargets`): read the file named by `flag.Arg(0)`;
on error, `fmt.Println("Error reading config file:", err)` — which writes to standard
output — then `os.Exit(1)`; on success, one target per line of the file. -/
def runStartup (argv : List String) (fs : String → Option String) :
    Except FatalExit (List PingStats) :=
  match readFileFS fs (flagArg0 argv) with
  | none => .error { code := 1, chan := .stdout, msg := "Error reading config file:" }
  | some content => .ok (readTargets (goLines content))

/-!
## Interleaving model for the per-target lock

Each `pingStats` method body runs entirely under `s.mtx`, so every mutator call and
every accessor call is one atomic action; `pingsToRows` makes three separate locked
accessor calls per row (`PktLoss`, then `RttAvg`, then `RttStdDev`), between which the
target's prober (the single writer) can run.  A schedule is the serialization order
the lock produces.
-/

/-- One atomic (lock-protected) action on a single target: a writer mutator call or
one of the three reader accessor calls `pingsToRows` makes for the row. -/
inductive Act where
  | wSend : Act
  | wRecv : Int → Act
  | rLoss : Act
  | rAvg : Act
  | rStd : Act
deriving DecidableEq, Repr

/-- State change of one atomic action (accessor calls leave the state unchanged). -/
def stepAct (s : PingStats) : Act → PingStats
  | .wSend => OnPktSend s
  | .wRecv rtt => OnPktRecv s rtt
  | _ => s

/-- Run a schedule. -/
def applyActs (s : PingStats) (acts : List Act) : PingStats := acts.foldl stepAct s

/-- All states reached along a schedule, in order (including the initial state). -/
def statesAlong (s : PingStats) : List Act → List PingStats
  | [] => [s]
  | a :: rest => s :: statesAlong (stepAct s a) rest

/-- One observed accessor value. -/
inductive Obs where
  | loss : GoFloat → Obs
  | avg : Int → Obs
  | std : Int → Obs
deriving DecidableEq, Repr

/-- The accessor values a schedule's read actions observe, in schedule order; each
read returns the accessor applied to the state at its point in the serialization. -/
def obsAlong (s : PingStats) : List Act → List Obs
  | [] => []
  | a :: rest =>
      match a with
      | .rLoss => .loss (PktLoss s) :: obsAlong (stepAct s a) rest
      | .rAvg => .avg (RttAvg s) :: obsAlong (stepAct s a) rest
      | .rStd => .std (RttStdDev s) :: obsAlong (stepAct s a) rest
      | _ => obsAlong (stepAct s a) rest

/-- Writer actions. -/
def isWrite : Act → Bool
  | .wSend => true
  | .wRecv _ => true
  | _ => false

/-- The schedule's reader side is exactly one `pingsToRows` row read: `PktLoss`, then
`RttAvg`, then `RttStdDev` (the writer's actions interleave freely around them). -/
def readerIsRowRead (sched : List Act) : Prop :=
  sched.filter (fun a => !isWrite a) = [.rLoss, .rAvg, .rStd]

/-- The observed `(packetLoss, meanRtt, stdDevRtt)` triple is consistent with a single
point-in-time state of the schedule — the row reads as if taken atomically. -/
def atomicRow (s0 : PingStats) (sched : List Act) : Prop :=
  ∃ s ∈ statesAlong s0 sched,
    obsAlong s0 sched = [.loss (PktLoss s), .avg (RttAvg s), .std (RttStdDev s)]

/-!
## Concrete targets and schedules used by the claims
-/

/-- A target that completed one send and one receive with round-trip time `k` ns. -/
def mkTarget (name : String) (k : Int) : PingStats :=
  applyOps (newPingStats name name) [.send, .recv k]

/-- Target `A`: mean RTT 20ms. -/
def tgtA : PingStats := mkTarget "A" 20000000

/-- Target `B`: mean RTT 10ms. -/
def tgtB : PingStats := mkTarget "B" 10000000

/-- Target `C`: mean RTT 20ms. -/
def tgtC : PingStats := mkTarget "C" 20000000

/-- A target that was sent 5 probes and received no reply. -/
def tgtX : PingStats := applyOps (newPingStats "X" "x") (List.replicate 5 .send)

/-- A target with one received sample (mean 10ms). -/
def tgtY : PingStats := mkTarget "Y" 10000000

/-- A target with 4 sends and 2 receives (packet loss 50%). -/
def tgt42 : PingStats :=
  applyOps (newPingStats "D" "d") [.send, .send, .send, .send, .recv 100, .recv 200]

/-- Thirteen targets whose mean RTTs alternate 20ms, 10ms, …, 20ms: with 13 elements
Go's `pdqsort` leaves the (stable) insertion-sort regime. -/
def cexPings : List PingStats :=
  [mkTarget "T0" 20000000, mkTarget "T1" 10000000, mkTarget "T2" 20000000,
   mkTarget "T3" 10000000, mkTarget "T4" 20000000, mkTarget "T5" 10000000,
   mkTarget "T6" 20000000, mkTarget "T7" 10000000, mkTarget "T8" 20000000,
   mkTarget "T9" 10000000, mkTarget "T10" 20000000, mkTarget "T11" 10000000,
   mkTarget "T12" 20000000]

/-- A serialization in which the writer's `OnPktRecv` runs between the reader's
`PktLoss` and `RttAvg` accessor calls. -/
def schedTorn : List Act := [.wSend, .rLoss, .wRecv 10000000, .rAvg, .rStd]

/-!
# Theorems
-/

theorem pktsRecv_OnPktRecv (s : PingStats) (r : Int) :
    (OnPktRecv s r).pktsRecv = s.pktsRecv + 1 := by
  simp only [OnPktRecv]
  split <;> rfl

theorem pktsSent_OnPktRecv (s : PingStats) (r : Int) :
    (OnPktRecv s r).pktsSent = s.pktsSent := by
  simp only [OnPktRecv]
  split <;> rfl

theorem pktsSent_applyOps (ops : List Op) (s : PingStats) :
    (applyOps s ops).pktsSent = s.pktsSent + nSends ops := by
  induction ops generalizing s with
  | nil => simp [applyOps, nSends]
  | cons o rest ih =>
      have hone : applyOps s (o :: rest) = applyOps (applyOp s o) rest := rfl
      rw [hone, ih]
      cases o with
      | send =>
          simp [applyOp, OnPktSend, nSends, isSend]
          omega
      | recv r =>
          simp [applyOp, pktsSent_OnPktRecv, nSends, isSend]

theorem pktsRecv_applyOps (ops : List Op) (s : PingStats) :
    (applyOps s ops).pktsRecv = s.pktsRecv + nRecvs ops := by
  induction ops generalizing s with
  | nil => simp [applyOps, nRecvs]
  | cons o rest ih =>
      have hone : applyOps s (o :: rest) = applyOps (applyOp s o) rest := rfl
      rw [hone, ih]
      cases o with
      | send =>
          simp [applyOp, OnPktSend, nRecvs, isSend]
      | recv r =>
          simp [applyOp, pktsRecv_OnPktRecv, nRecvs, isSend]
          omega

theorem applyOps_sendOnly (ops : List Op) (s : PingStats)
    (h : ∀ o ∈ ops, isSend o = true) :
    applyOps s ops =
      { s with pktsSent := s.pktsSent + nSends ops } := by
  induction ops generalizing s with
  | nil => cases s; simp [applyOps, nSends]
  | cons o rest ih =>
      cases o with
      | send =>
          have hone : applyOps s (.send :: rest) = applyOps (OnPktSend s) rest := rfl
          rw [hone, ih (OnPktSend s) (fun o ho => h o (List.mem_cons_of_mem _ ho))]
          cases s
          simp [OnPktSend, nSends, isSend]
          omega
      | recv r =>
          exact absurd (h _ (List.mem_cons_self _ _)) (by simp [isSend])

/-- `nSends`/`nRecvs` grow by at most the appended part. -/
theorem nSends_append (l1 l2 : List Op) : nSends (l1 ++ l2) = nSends l1 + nSends l2 := by
  simp [nSends, List.filter_append]

theorem nRecvs_append (l1 l2 : List Op) : nRecvs (l1 ++ l2) = nRecvs l1 + nRecvs l2 := by
  simp [nRecvs, List.filter_append]

/-- C4: After the three calls `onReceive(10ms)`, `onReceive(20ms)`, `onReceive(30ms)`
on a fresh Target, `meanRtt = 20ms` and `stdDevRtt = 10ms`, with the accumulator at
`2·10¹⁴ ns²`, exactly as Welford's update (first sample: mean = rtt, accumulator = 0;
then `delta = rtt − mean`; `mean += delta / n`; `acc += delta × (rtt − mean')`;
`stddev = √(acc / (n−1))`) prescribes. -/
theorem C4_welford_example :
    ((applyOps (newPingStats "t" "a")
        [.recv 10000000, .recv 20000000, .recv 30000000]).rttAvg = 20000000) ∧
    ((applyOps (newPingStats "t" "a")
        [.recv 10000000, .recv 20000000, .recv 30000000]).rttStdDev = 10000000) ∧
    ((applyOps (newPingStats "t" "a")
        [.recv 10000000, .recv 20000000, .recv 30000000]).rttVar = 200000000000000) := by
  decide

/-- C6: after exactly one `onReceive(rtt = X)` on a fresh Target (any number of sends,
no prior receives), `meanRtt = X`, the variance accumulator is 0, and `stdDevRtt` is
still its zero value (fewer than 2 samples). -/
theorem C6_single_receive (name addr : String) (X : Int) (n : Nat) :
    ((applyOps (newPingStats name addr) (List.replicate n .send ++ [.recv X])).rttAvg = X) ∧
    ((applyOps (newPingStats name addr) (List.replicate n .send ++ [.recv X])).rttVar = 0) ∧
    ((applyOps (newPingStats name addr) (List.replicate n .send ++ [.recv X])).rttStdDev
        = 0) := by
  have happ :
      applyOps (newPingStats name addr) (List.replicate n .send ++ [.recv X]) =
        OnPktRecv (applyOps (newPingStats name addr) (List.replicate n .send)) X := by
    simp [applyOps, List.foldl_append, applyOp]
  have hsend :
      applyOps (newPingStats name addr) (List.replicate n .send) =
        { newPingStats name addr with pktsSent := (0 : Int) + nSends (List.replicate n .send) } :=
    applyOps_sendOnly _ _ (by intro o ho; simp [List.eq_of_mem_replicate ho, isSend])
  rw [happ, hsend]
  simp [OnPktRecv, newPingStats]

/-- C7: for every call sequence on one Target in which every prefix has at least as
many sends as receives, after every prefix `packetsReceived ≤ packetsSent`, both
counters are nonnegative, and one further call never decreases either counter. -/
theorem C7_counters_invariant (name addr : String) (ops : List Op)
    (h : ∀ n : Nat, nRecvs (ops.take n) ≤ nSends (ops.take n)) :
    ∀ n : Nat,
      ((applyOps (newPingStats name addr) (ops.take n)).pktsRecv ≤
        (applyOps (newPingStats name addr) (ops.take n)).pktsSent) ∧
      (0 ≤ (applyOps (newPingStats name addr) (ops.take n)).pktsSent) ∧
      (0 ≤ (applyOps (newPingStats name addr) (ops.take n)).pktsRecv) ∧
      ((applyOps (newPingStats name addr) (ops.take n)).pktsSent ≤
        (applyOps (newPingStats name addr) (ops.take (n + 1))).pktsSent) ∧
      ((applyOps (newPingStats name addr) (ops.take n)).pktsRecv ≤
        (applyOps (newPingStats name addr) (ops.take (n + 1))).pktsRecv) := by
  intro n
  have hs := pktsSent_applyOps (ops.take n) (newPingStats name addr)
  have hr := pktsRecv_applyOps (ops.take n) (newPingStats name addr)
  have hs1 := pktsSent_applyOps (ops.take (n + 1)) (newPingStats name addr)
  have hr1 := pktsRecv_applyOps (ops.take (n + 1)) (newPingStats name addr)
  have htake : ops.take (n + 1) = ops.take n ++ (ops.drop n).take 1 := by
    rw [← List.take_append_drop n ops, List.take_append_eq_append_take]
    simp [List.take_take]
    omega
  have hsm : nSends (ops.take n) ≤ nSends (ops.take (n + 1)) := by
    rw [htake, nSends_append]; omega
  have hrm : nRecvs (ops.take n) ≤ nRecvs (ops.take (n + 1)) := by
    rw [htake, nRecvs_append]; omega
  have hn := h n
  rw [hs, hr, hs1, hr1]
  simp [newPingStats]
  omega

/-- Witness for `C7_counters_invariant` at `ops = [send, recv 5]`, `n = 2`. -/
theorem C7_counters_invariant_witness :
    (applyOps (newPingStats "w" "w") ([Op.send, Op.recv 5].take 2)).pktsRecv ≤
      (applyOps (newPingStats "w" "w") ([Op.send, Op.recv 5].take 2)).pktsSent := by
  have h : ∀ n : Nat,
      nRecvs ([Op.send, Op.recv 5].take n) ≤ nSends ([Op.send, Op.recv 5].take n) := by
    intro n
    match n with
    | 0 => decide
    | 1 => decide
    | (m + 2) =>
        have : [Op.send, Op.recv 5].take (m + 2) = [Op.send, Op.recv 5] := by
          simp
        rw [this]; decide
  exact (C7_counters_invariant "w" "w" [Op.send, Op.recv 5] h 2).1

section StabilityProof

variable {α : Type} [Inhabited α] (less : α → α → Bool)

theorem filter_set_swap_adj (p : α → Bool) :
    ∀ (j : Nat) (l : List α), j + 1 < l.length →
      ¬(p (getA l (j + 1)) = true ∧ p (getA l j) = true) →
      ((l.set (j + 1) (getA l j)).set j (getA l (j + 1))).filter p = l.filter p := by
  intro j
  induction j with
  | zero =>
      intro l hl hp
      cases l with
      | nil => simp at hl
      | cons x l2 =>
          cases l2 with
          | nil => simp at hl
          | cons y t =>
              have hx : getA (x :: y :: t) 0 = x := rfl
              have hy : getA (x :: y :: t) 1 = y := rfl
              rw [hx, hy] at hp
              show List.filter p (((x :: y :: t).set 1 x).set 0 y) =
                  List.filter p (x :: y :: t)
              simp only [List.set_cons_succ, List.set_cons_zero]
              cases hpx : p x <;> cases hpy : p y <;>
                simp [List.filter_cons, hpx, hpy]
              exact absurd ⟨hpy, hpx⟩ hp
  | succ n ih =>
      intro l hl hp
      cases l with
      | nil => simp at hl
      | cons x t =>
          have h1 : getA (x :: t) (n + 2) = getA t (n + 1) := rfl
          have h2 : getA (x :: t) (n + 1) = getA t n := rfl
          rw [h1, h2] at hp
          show List.filter p (((x :: t).set (n + 2) (getA t n)).set (n + 1)
                (getA t (n + 1))) = List.filter p (x :: t)
          simp only [List.set_cons_succ]
          have hlen : n + 1 < t.length := by simpa using hl
          simp [List.filter_cons, ih t hlen hp]

theorem filter_swapA_adj (p : α → Bool) (l : List α) (j : Nat)
    (hp : ¬(p (getA l (j + 1)) = true ∧ p (getA l j) = true)) :
    (swapA l (j + 1) j).filter p = l.filter p := by
  unfold swapA
  split
  · next h => exact filter_set_swap_adj p j l h.1 hp
  · rfl

theorem filter_insSortInner (p : α → Bool)
    (hless : ∀ x y : α, less x y = true → ¬(p x = true ∧ p y = true)) (a : Nat) :
    ∀ (j : Nat) (l : List α), (insSortInner less l a j).filter p = l.filter p := by
  intro j
  induction j with
  | zero => intro l; rfl
  | succ n ih =>
      intro l
      simp only [insSortInner]
      split
      · next h =>
          rw [ih (swapA l (n + 1) n)]
          exact filter_swapA_adj p l n (hless _ _ h.2)
      · rfl

theorem filter_insSortLoop (p : α → Bool)
    (hless : ∀ x y : α, less x y = true → ¬(p x = true ∧ p y = true)) (a : Nat) :
    ∀ (fuel i : Nat) (l : List α),
      (insSortLoop less l a i fuel).filter p = l.filter p := by
  intro fuel
  induction fuel with
  | zero => intro i l; rfl
  | succ f ih =>
      intro i l
      show (insSortLoop less (insSortInner less l a i) a (i + 1) f).filter p = _
      rw [ih (i + 1) (insSortInner less l a i), filter_insSortInner less p hless a i l]

theorem filter_insertionSortA (p : α → Bool)
    (hless : ∀ x y : α, less x y = true → ¬(p x = true ∧ p y = true)) (a b : Nat)
    (l : List α) :
    (insertionSortA less l a b).filter p = l.filter p := by
  unfold insertionSortA
  exact filter_insSortLoop less p hless a (b - (a + 1)) (a + 1) l

set_option maxRecDepth 8192 in
theorem sortSliceGo_small (l : List α) (h : l.length ≤ 12) :
    sortSliceGo less l = insertionSortA less l 0 l.length := by
  unfold sortSliceGo
  show pdqsortA less ((l.length * l.length + 63) + 1) l 0 l.length
      (goBitsLen l.length) true true = _
  simp only [pdqsortA]
  rw [if_pos (by omega : l.length - 0 ≤ 12)]

end StabilityProof

theorem sortPings_filter_small (l : List PingStats) (h : l.length ≤ 12) (k : Int) :
    (sortPings l).filter (fun s => decide (RttAvg s = k)) =
      l.filter (fun s => decide (RttAvg s = k)) := by
  have hless : ∀ x y : PingStats, lessPing x y = true →
      ¬((decide (RttAvg x = k)) = true ∧ (decide (RttAvg y = k)) = true) := by
    intro x y hxy hand
    obtain ⟨h1, h2⟩ := hand
    simp [lessPing] at hxy
    simp at h1 h2
    omega
  unfold sortPings
  rw [sortSliceGo_small lessPing l h]
  exact filter_insertionSortA lessPing _ hless 0 l.length l

/-- C1 (amended): the per-tick sort is ascending by mean RTT via Go's `sort.Slice`
(pdqsort), which is a stable insertion sort only for ranges of at most 12 elements:
a whole list of at most 12 targets keeps the relative order of equal-mean targets
(filtering by any mean value commutes with sorting), and the concrete 3-target example
`[A:20ms, B:10ms, C:20ms]` sorts to `[B, A, C]`; for 13 or more targets `sort.Slice`
gives no stability guarantee and equal-mean targets can be reordered (see the
counterexample). -/
theorem C1_small_sort_stable :
    (∀ (l : List PingStats), l.length ≤ 12 → ∀ k : Int,
        (sortPings l).filter (fun s => decide (RttAvg s = k)) =
          l.filter (fun s => decide (RttAvg s = k))) ∧
    sortPings [tgtA, tgtB, tgtC] = [tgtB, tgtA, tgtC] := by
  constructor
  · intro l h k
    exact sortPings_filter_small l h k
  · decide

/-- Witness for `C1_small_sort_stable` at the 3-target example and mean 20ms. -/
theorem C1_small_sort_stable_witness :
    (sortPings [tgtA, tgtB, tgtC]).filter (fun s => decide (RttAvg s = 20000000)) =
      [tgtA, tgtB, tgtC].filter (fun s => decide (RttAvg s = 20000000)) :=
  C1_small_sort_stable.1 [tgtA, tgtB, tgtC] (by decide) 20000000

/-- C1 counterexample: for the 13-target list whose mean RTTs alternate 20ms and 10ms,
the tick sort (`sort.Slice`, which is not stable) permutes the equal-mean 10ms targets
— the names of the 10ms targets appear in a different relative order after sorting —
refuting the claimed stability for every list of targets. -/
theorem C1_sort_not_stable_cex :
    ((sortPings cexPings).filter (fun s => decide (RttAvg s = 10000000))).map
        PingStats.Name ≠
      (cexPings.filter (fun s => decide (RttAvg s = 10000000))).map PingStats.Name := by
  decide

/-- C2 counterexample: target `X` (5 probes sent, none received) sorts *before* target
`Y` (mean 10ms), because its `rttAvg` is still the zero value — not after it, as the
claim's "+infinity" sorting would require. -/
theorem C2_zero_recv_sorts_first_cex :
    sortPings [tgtY, tgtX] = [tgtX, tgtY] ∧ tgtX ≠ tgtY ∧ tgtX.pktsRecv = 0 ∧
      1 ≤ tgtY.pktsRecv := by
  decide

/-- C2 (amended): a Target with zero received samples has `meanRtt` still at its Go
zero value regardless of send count, so it sorts as if its mean were 0 ns — before,
not after, every target with a positive mean — and sorting it does not crash:
concretely `[Y:10ms, X:no-replies]` sorts to `[X, Y]`. -/
theorem C2_zero_recv_mean_zero :
    (∀ (name addr : String) (ops : List Op), (∀ o ∈ ops, isSend o = true) →
        RttAvg (applyOps (newPingStats name addr) ops) = 0) ∧
    sortPings [tgtY, tgtX] = [tgtX, tgtY] := by
  constructor
  · intro name addr ops h
    rw [applyOps_sendOnly ops _ h]
    rfl
  · decide

/-- Witness for `C2_zero_recv_mean_zero`: the 5-sends-no-replies target has mean 0. -/
theorem C2_zero_recv_mean_zero_witness :
    RttAvg (applyOps (newPingStats "X" "x") (List.replicate 5 .send)) = 0 :=
  C2_zero_recv_mean_zero.1 "X" "x" (List.replicate 5 .send)
    (fun o ho => by simp [List.eq_of_mem_replicate ho, isSend])

theorem obsAlong_writes (ws : List Act) (h : ∀ a ∈ ws, isWrite a = true)
    (s : PingStats) (rest : List Act) :
    obsAlong s (ws ++ rest) = obsAlong (applyActs s ws) rest := by
  induction ws generalizing s with
  | nil => rfl
  | cons a t ih =>
      have ha : isWrite a = true := h a (List.mem_cons_self a t)
      have ht : ∀ x ∈ t, isWrite x = true := fun x hx => h x (List.mem_cons_of_mem _ hx)
      cases a with
      | wSend =>
          show obsAlong (stepAct s .wSend) (t ++ rest) = _
          rw [ih ht]
          rfl
      | wRecv r =>
          show obsAlong (stepAct s (.wRecv r)) (t ++ rest) = _
          rw [ih ht]
          rfl
      | rLoss => simp [isWrite] at ha
      | rAvg => simp [isWrite] at ha
      | rStd => simp [isWrite] at ha

theorem applyActs_mem_statesAlong (ws rest : List Act) (s : PingStats) :
    applyActs s ws ∈ statesAlong s (ws ++ rest) := by
  induction ws generalizing s with
  | nil => cases rest <;> simp [applyActs, statesAlong]
  | cons a t ih =>
      show applyActs (stepAct s a) t ∈ statesAlong s ((a :: t) ++ rest)
      have hrw : statesAlong s ((a :: t) ++ rest) =
          s :: statesAlong (stepAct s a) (t ++ rest) := rfl
      rw [hrw]
      exact List.mem_cons_of_mem _ (ih (stepAct s a))

theorem obsAlong_rowRead (s : PingStats) (ws2 : List Act)
    (h2 : ∀ a ∈ ws2, isWrite a = true) :
    obsAlong s ([.rLoss, .rAvg, .rStd] ++ ws2) =
      [.loss (PktLoss s), .avg (RttAvg s), .std (RttStdDev s)] := by
  show Obs.loss (PktLoss s) :: Obs.avg (RttAvg s) :: Obs.std (RttStdDev s) ::
      obsAlong s ws2 = _
  have hnil : obsAlong s ws2 = [] := by
    have hw := obsAlong_writes ws2 h2 s []
    simpa [obsAlong] using hw
  rw [hnil]

/-- C5 (amended): each accessor is individually atomic under the per-target lock, so a
row whose three accessor reads happen with no writer action between them observes a
single point-in-time state — but the lock is released between the three reads, so
atomicity of the whole quintuple holds only in that case (see the counterexample for
the interleaved case). -/
theorem C5_row_atomic_without_writes (s0 : PingStats) (ws1 ws2 : List Act)
    (h1 : ∀ a ∈ ws1, isWrite a = true) (h2 : ∀ a ∈ ws2, isWrite a = true) :
    atomicRow s0 (ws1 ++ ([.rLoss, .rAvg, .rStd] ++ ws2)) := by
  refine ⟨applyActs s0 ws1, applyActs_mem_statesAlong ws1 _ s0, ?_⟩
  rw [obsAlong_writes ws1 h1 s0, obsAlong_rowRead _ ws2 h2]

/-- Witness for `C5_row_atomic_without_writes`: one writer action before the reads and
one after. -/
theorem C5_row_atomic_without_writes_witness :
    atomicRow (newPingStats "t" "a")
      ([Act.wSend] ++ ([.rLoss, .rAvg, .rStd] ++ [Act.wRecv 5])) :=
  C5_row_atomic_without_writes (newPingStats "t" "a") [Act.wSend] [Act.wRecv 5]
    (by intro a ha; simp at ha; simp [ha, isWrite])
    (by intro a ha; simp at ha; simp [ha, isWrite])

/-- C5 counterexample: in the serialization `[OnPktSend; PktLoss; OnPktRecv(10ms);
RttAvg; RttStdDev]` — a legal interleaving, since `pingsToRows` reacquires the lock for
each accessor — the row observes loss 100% (1 sent, 0 received) together with mean
10ms (1 received): no single state of the target ever held that combination, refuting
the claimed atomicity of the quintuple read. -/
theorem C5_torn_row_cex :
    readerIsRowRead schedTorn ∧ ¬ atomicRow (newPingStats "t" "a") schedTorn := by
  constructor
  · unfold readerIsRowRead
    decide
  · rintro ⟨s, hs, hobs⟩
    have e0 : OnPktSend (newPingStats "t" "a") =
        (⟨"t", "a", 1, 0, 0, 0, 0⟩ : PingStats) := by decide
    have e2 : OnPktRecv (⟨"t", "a", 1, 0, 0, 0, 0⟩ : PingStats) 10000000 =
        (⟨"t", "a", 1, 1, 10000000, 0, 0⟩ : PingStats) := by decide
    have hstates : statesAlong (newPingStats "t" "a") schedTorn =
        [⟨"t", "a", 0, 0, 0, 0, 0⟩, ⟨"t", "a", 1, 0, 0, 0, 0⟩, ⟨"t", "a", 1, 0, 0, 0, 0⟩,
         ⟨"t", "a", 1, 1, 10000000, 0, 0⟩, ⟨"t", "a", 1, 1, 10000000, 0, 0⟩,
         ⟨"t", "a", 1, 1, 10000000, 0, 0⟩] := by decide
    have hobsEval : obsAlong (newPingStats "t" "a") schedTorn =
        [.loss (PktLoss (⟨"t", "a", 1, 0, 0, 0, 0⟩ : PingStats)),
         .avg 10000000, .std 0] := by
      simp [schedTorn, obsAlong, stepAct, e0, e2, RttAvg, RttStdDev]
    have hl1 : PktLoss (⟨"t", "a", 1, 0, 0, 0, 0⟩ : PingStats) = .val 100 := by
      norm_num [PktLoss, gfDiv, gfMul]
    have hl0 : PktLoss (⟨"t", "a", 0, 0, 0, 0, 0⟩ : PingStats) = .nan := by
      simp [PktLoss, gfDiv, gfMul]
    have hl2 : PktLoss (⟨"t", "a", 1, 1, 10000000, 0, 0⟩ : PingStats) = .val 0 := by
      norm_num [PktLoss, gfDiv, gfMul]
    rw [hstates] at hs
    rw [hobsEval, hl1] at hobs
    simp at hs
    rcases hs with h | h | h <;> subst h <;>
      simp [RttAvg, RttStdDev, hl0, hl1, hl2] at hobs

theorem cutChars_not_mem : ∀ (l : List Char), '|' ∉ l → cutChars l = none := by
  intro l h
  induction l with
  | nil => rfl
  | cons c cs ih =>
      simp at h
      have hc : c ≠ '|' := fun hh => h.1 hh.symm
      simp [cutChars, hc, ih h.2]

/-- C8: a target-list line without a `|` separator parses (without failing) into a
Target named by the whole line with an empty address; loading always yields one
Target per line. -/
theorem C8_no_separator_line :
    (∀ line : String, '|' ∉ line.data → targetOfLine line = newPingStats line "") ∧
    (∀ lines : List String, (readTargets lines).length = lines.length) := by
  constructor
  · intro line h
    have hc : cutChars line.data = none := cutChars_not_mem line.data h
    simp [targetOfLine, goCut, hc]
  · intro lines
    simp [readTargets]

/-- Witness for `C8_no_separator_line` at the separator-free line `"justaname"`. -/
theorem C8_no_separator_line_witness :
    targetOfLine "justaname" = newPingStats "justaname" "" :=
  C8_no_separator_line.1 "justaname" (by decide)

/-- C9 counterexample: with no argument, startup exits with code 1, but the message is
the config-file read error printed with `fmt.Println` — standard output — not a usage
error on standard error, refuting the claim's "usage error" / "printed to standard
error". -/
theorem C9_startup_error_cex :
    (runStartup [] (fun _ => none) =
      .error { code := 1, chan := .stdout, msg := "Error reading config file:" }) ∧
    OutChan.stdout ≠ OutChan.stderr := by
  exact ⟨rfl, by decide⟩

/-- C9 (amended): whenever the target-list file named by `flag.Arg(0)` cannot be read —
in particular always when no argument is given, since the empty path is unreadable —
startup terminates immediately with exit code 1 and the fixed config-file error
message on standard output (no usage message, not standard error), producing no
targets. -/
theorem C9_startup_error_behavior :
    (∀ (argv : List String) (fs : String → Option String),
        readFileFS fs (flagArg0 argv) = none →
        runStartup argv fs =
          .error { code := 1, chan := .stdout, msg := "Error reading config file:" }) ∧
    (∀ fs : String → Option String,
        runStartup [] fs =
          .error { code := 1, chan := .stdout, msg := "Error reading config file:" }) := by
  constructor
  · intro argv fs h
    simp [runStartup, h]
  · intro fs
    rfl

/-- Witness for `C9_startup_error_behavior` at `argv = ["missing.txt"]` over an empty
filesystem. -/
theorem C9_startup_error_behavior_witness :
    runStartup ["missing.txt"] (fun _ => none) =
      .error { code := 1, chan := .stdout, msg := "Error reading config file:" } :=
  C9_startup_error_behavior.1 ["missing.txt"] (fun _ => none) rfl

theorem pktLoss_fresh_nan : PktLoss (newPingStats "a" "b") = .nan := by
  simp [PktLoss, newPingStats, gfDiv, gfMul]

theorem lossCell_fresh_nan : (rowOf (newPingStats "a" "b")).lossCell = "NaN%" := by
  simp [rowOf, pktLoss_fresh_nan, fmtF1]

theorem pktLoss_tgt42 : PktLoss tgt42 = .val 50 := by
  have h2 : tgt42.pktsSent = 4 ∧ tgt42.pktsRecv = 2 := by decide
  simp [PktLoss, h2.1, h2.2, gfDiv, gfMul]
  norm_num

theorem lossCell_tgt42 : (rowOf tgt42).lossCell = "50.0%" := by
  rw [rowOf, pktLoss_tgt42]
  simp only [fmtF1]
  have hm : rndHalfEven (|(50 : ℚ)| * 10) = 500 := by
    simp [rndHalfEven]
    norm_num
  rw [hm]
  have hq : ¬((50 : ℚ) < 0) := by norm_num
  simp [hq]
  decide

/-- C3 counterexample: with `packetsSent = 0` the packet loss *is* computed — `0/0`,
IEEE NaN — and the rendered cell is `"NaN%"`: the NaN propagates into the display
rather than being withheld or replaced by a sentinel, refuting the claim's "is not
computed … rendered as a sentinel instead". -/
theorem C3_nan_loss_cex :
    PktLoss (newPingStats "a" "b") = .nan ∧
    (rowOf (newPingStats "a" "b")).lossCell = "NaN%" :=
  ⟨pktLoss_fresh_nan, lossCell_fresh_nan⟩

/-- C3 (amended): `PktLoss` is computed unconditionally and never crashes: with
`packetsSent = 0` it is NaN (`0/0`) and the row's loss cell renders as `"NaN%"`; with
`packetsSent > 0` it equals `(packetsSent − packetsReceived) / packetsSent × 100` —
exactly 50.0, rendered `"50.0%"`, at sent = 4, received = 2. -/
theorem C3_pkt_loss_formula :
    (∀ s : PingStats, 0 < s.pktsSent →
        PktLoss s =
          .val (((s.pktsSent - s.pktsRecv : Int) : ℚ) / ((s.pktsSent : Int) : ℚ) * 100)) ∧
    (PktLoss tgt42 = .val 50) ∧ ((rowOf tgt42).lossCell = "50.0%") ∧
    (PktLoss (newPingStats "a" "b") = .nan) ∧
    ((rowOf (newPingStats "a" "b")).lossCell = "NaN%") := by
  refine ⟨?_, pktLoss_tgt42, lossCell_tgt42, pktLoss_fresh_nan, lossCell_fresh_nan⟩
  intro s hs
  have hz : ((s.pktsSent : Int) : ℚ) ≠ 0 := by
    exact_mod_cast ne_of_gt hs
  simp [PktLoss, gfDiv, gfMul, hz]

/-- Witness for `C3_pkt_loss_formula`'s guarded conjunct at the 4-sent/2-received
target. -/
theorem C3_pkt_loss_formula_witness :
    PktLoss tgt42 =
      .val (((tgt42.pktsSent - tgt42.pktsRecv : Int) : ℚ) /
        ((tgt42.pktsSent : Int) : ℚ) * 100) :=
  C3_pkt_loss_formula.1 tgt42 (by decide)

/-- C10: the running-mean update divides the nanosecond delta by the receive count
with integer (truncated) division, so after `onReceive(1ns)` then `onReceive(2ns)` the
mean is 1ns, not the exact arithmetic mean 1.5ns. -/
theorem C10_integer_division_mean :
    ((applyOps (newPingStats "X" "x") [.recv 1, .recv 2]).rttAvg = 1) ∧
    (((applyOps (newPingStats "X" "x") [.recv 1, .recv 2]).rttAvg : ℚ) ≠ (1 + 2) / 2) := by
  constructor
  · decide
  · have h1 : (applyOps (newPingStats "X" "x") [.recv 1, .recv 2]).rttAvg = 1 := by decide
    rw [h1]
    norm_num

end Pinglist
